import Mathlib

/-!
Verification of the foximg image viewer's gallery and animation subsystem.

This file is a shallow embedding, in Lean 4, of the core data structures and
operations of the foximg repository (src/images.rs,
src/images/foximg_image_loader.rs, src/images/foximg_png_decoder.rs):

* the animation player `FoximgImageAnimated` and its `update_frame` step,
* the loop-count conversions from GIF and APNG metadata,
* the gallery `FoximgImages` with its navigation, cache-fetch (`img_get`)
  and rotation operations,
* the folder scanner `FoximgFolder` with its binary search for the closest
  image, and
* the loader dispatch chain (`new_dynamic` / `new_png` / `new_webp` /
  `new_gif`) with its mutual format fallback.

Machine floats (`f32`) are modelled as exact rationals, Rust `usize` as `Nat`
(with Rust's saturated/checked behavior made explicit where it matters),
`NonZeroU32` as `ℕ+`, and the raylib / filesystem collaborators (textures,
logging, directory enumeration) are abstracted away: pixel buffers never
influence the control flow verified here.
-/

namespace Foximg

/-- Number of repetitions in an animated image. Mirrors `AnimationLoops` in
src/images.rs; `NonZeroU32` is modelled as `ℕ+`. -/
inductive AnimationLoops
  | Finite (i : ℕ+)
  | Infinite
  deriving DecidableEq

/-- One animation frame. Only the timing metadata of the image-rs `Frame` is
modelled (the numerator/denominator of `delay().numer_denom_ms()`); the pixel
buffer and the (left, top) offsets never influence the player's control flow. -/
structure Frame where
  delayNum : Nat
  delayDen : Nat
  deriving DecidableEq

instance : Inhabited Frame := ⟨⟨0, 1⟩⟩

/-- Delay of a frame in milliseconds, as computed in `update_frame`:
`delay().numer_denom_ms().0 as f32 / delay().numer_denom_ms().1 as f32`. -/
def Frame.delayMs (f : Frame) : ℚ :=
  (f.delayNum : ℚ) / (f.delayDen : ℚ)

/-- State of the animation player. Mirrors `FoximgImageAnimated` in
src/images.rs: the decoded frames, the current frame index, the elapsed time
within the current frame (ms, `f32` modelled as `ℚ`), and the remaining loop
count (`None` once playback has permanently stopped). -/
structure FoximgImageAnimated where
  frames : List Frame
  current : Nat
  current_delay : ℚ
  loops : Option AnimationLoops
  deriving DecidableEq

/-- Mirrors `FoximgImageAnimated::new`: frames already collected, index 0,
zero elapsed time, loop count from the decoder. -/
def FoximgImageAnimated.new (frames : List Frame) (loops : AnimationLoops) :
    FoximgImageAnimated :=
  { frames := frames, current := 0, current_delay := 0, loops := some loops }

/-- Mirrors `FoximgImageAnimated::update_frame`. The elapsed frame time
`rl.get_frame_time() * 1000.` is passed in as `dt` (milliseconds). Returns the
new state together with `some true` ("time to update the current frame"),
`some false` ("no update"), or `none` ("animation finished"). Out-of-bounds
frame indexing (a panic in Rust) is modelled by `List.getD` with a default
frame; all theorems below stay within bounds. -/
def FoximgImageAnimated.update_frame (st : FoximgImageAnimated) (dt : ℚ) :
    FoximgImageAnimated × Option Bool :=
  match st.loops with
  | none => (st, none)
  | some loops =>
    let current_delay := st.current_delay + dt
    let frame_delay := (st.frames.getD st.current default).delayMs
    if current_delay ≤ frame_delay then
      ({ st with current_delay := current_delay }, some false)
    else
      let current := st.current + 1
      if st.frames.length ≠ current then
        ({ st with current_delay := 0, current := current }, some true)
      else
        match loops with
        | .Finite i =>
          match i.val - 1 with
          | 0 =>
            ({ st with current_delay := 0, current := current, loops := none }, none)
          | k + 1 =>
            ({ st with current_delay := 0, current := 0,
                       loops := some (.Finite ⟨k + 1, k.succ_pos⟩) }, some true)
        | .Infinite =>
          ({ st with current_delay := 0, current := 0, loops := some .Infinite },
            some true)

/-- Iterated `update_frame`: one call per rendered frame, with the given list
of per-tick time deltas; collects the returned results in order. -/
def FoximgImageAnimated.advanceRun :
    FoximgImageAnimated → List ℚ → FoximgImageAnimated × List (Option Bool)
  | st, [] => (st, [])
  | st, dt :: rest =>
    (((st.update_frame dt).1.advanceRun rest).1,
      (st.update_frame dt).2 :: ((st.update_frame dt).1.advanceRun rest).2)

/-- The `gif::Repeat` metadata value: a finite `u16` repeat count or infinite.
Mirrors the input type of `impl From<gif::Repeat> for AnimationLoops`. -/
inductive GifRepeat
  | finite (i : Nat)
  | infinite
  deriving DecidableEq

/-- Mirrors `impl From<gif::Repeat> for AnimationLoops` in src/images.rs:
`Finite(0)` becomes `Finite(1)`, any other finite count is kept (the
`NonZeroU32::new(i).unwrap()` cannot panic because the zero case was matched
first), `Infinite` stays infinite. -/
def animationLoopsOfGifRepeat : GifRepeat → AnimationLoops
  | .finite 0 => .Finite 1
  | .finite (i + 1) => .Finite ⟨i + 1, i.succ_pos⟩
  | .infinite => .Infinite

/-- Mirrors `ApngDecoder::get_loop_count` in src/images/foximg_png_decoder.rs.
The argument is `animation_control().map(|ac| ac.num_plays)`: `num_plays = 0`
maps to `Infinite`, a positive `num_plays` to the same finite count, and a
missing animation-control chunk to `Finite(1)`. -/
def ApngDecoder.get_loop_count (animation_control : Option Nat) : AnimationLoops :=
  match animation_control with
  | some 0 => .Infinite
  | some (i + 1) => .Finite ⟨i + 1, i.succ_pos⟩
  | none => .Finite 1

/-- A loop count is "positive": its finite repeat count, when present, is
nonzero. -/
def AnimationLoops.positive : AnimationLoops → Prop
  | .Finite i => 0 < i.val
  | .Infinite => True

/-- The gallery. Mirrors `FoximgImages` in src/images.rs. An image handle
(`Rc<RefCell<FoximgImage>>`) is identified by an abstract `Nat` tag. A weak
reference (`Weak<...>`) is modelled by its state at the time of the call:
`some h` when `upgrade()` succeeds and yields handle `h`, `none` when the
handle has been dropped. A per-path loader (`FoximgImageLoader`) is modelled
by its outcome: `some h` for `Ok` with a fresh handle `h`, `none` for `Err`.
`current_images` is the `CircularBuffer<64, _>` of strong references, front
first. -/
structure FoximgImages where
  images : List (Option Nat)
  paths : List String
  images_loader : List (Option Nat)
  images_failed : List Bool
  current : Nat
  current_images : List Nat
  deriving DecidableEq

/-- Mirrors `FoximgImages::img_failed`: whether the current image failed to
load. -/
def FoximgImages.img_failed (g : FoximgImages) : Bool :=
  g.images_failed.getD g.current false

/-- Mirrors `CircularBuffer::<64, _>::push_back`: appends at the back; when
the buffer is full the element at the front is overwritten (dropped). -/
def pushBack64 (buf : List Nat) (x : Nat) : List Nat :=
  if buf.length < 64 then buf ++ [x] else buf.tail ++ [x]

/-- Result of one `img_get` call: the gallery state after the call, the
returned optional handle, and whether the per-path loader was invoked during
the call. -/
structure ImgGetResult where
  state : FoximgImages
  result : Option Nat
  loader_called : Bool
  deriving DecidableEq

/-- Mirrors `FoximgImages::img_get`: `None` immediately if the current image
already failed; otherwise upgrade the weak reference and return the handle on
success; on a miss invoke the stored loader, and either store a weak
reference, push the strong reference into the ring buffer and return the
handle, or permanently mark the path failed and return `None`. -/
def FoximgImages.img_get (g : FoximgImages) : ImgGetResult :=
  if g.img_failed then ⟨g, none, false⟩
  else
    match g.images.getD g.current none with
    | some texture => ⟨g, some texture, false⟩
    | none =>
      match g.images_loader.getD g.current none with
      | some texture =>
        ⟨{ g with images := g.images.set g.current (some texture),
                  current_images := pushBack64 g.current_images texture },
          some texture, true⟩
      | none =>
        ⟨{ g with images_failed := g.images_failed.set g.current true },
          none, true⟩

/-- Mirrors `FoximgImages::can_inc`: `current < paths.len() - 1` (with `Nat`
subtraction; the gallery is non-empty by construction, which the theorems
assume, so the `usize` and `Nat` readings agree). -/
def FoximgImages.can_inc (g : FoximgImages) : Bool :=
  decide (g.current < g.paths.length - 1)

/-- Mirrors `FoximgImages::can_dec`: `current > 0`. -/
def FoximgImages.can_dec (g : FoximgImages) : Bool :=
  decide (0 < g.current)

/-- Mirrors `FoximgImages::inc` (the title-bar/log refresh is an external
side effect with no influence on the gallery state). -/
def FoximgImages.inc (g : FoximgImages) : FoximgImages :=
  if g.can_inc then { g with current := g.current + 1 } else g

/-- Mirrors `FoximgImages::dec`. -/
def FoximgImages.dec (g : FoximgImages) : FoximgImages :=
  if g.can_dec then { g with current := g.current - 1 } else g

/-- One navigation step: `true` is `inc`, `false` is `dec`. -/
def FoximgImages.navStep (g : FoximgImages) (b : Bool) : FoximgImages :=
  if b then g.inc else g.dec

/-- A sequence of navigation steps. -/
def FoximgImages.navRun (g : FoximgImages) (steps : List Bool) : FoximgImages :=
  steps.foldl FoximgImages.navStep g

/-- The gallery operations a caller can interleave: a fetch of the current
image, or a navigation step. -/
inductive GalleryOp
  | fetch
  | incOp
  | decOp
  deriving DecidableEq

/-- Apply one gallery operation to the state. -/
def FoximgImages.applyOp (g : FoximgImages) : GalleryOp → FoximgImages
  | .fetch => g.img_get.state
  | .incOp => g.inc
  | .decOp => g.dec

/-- Apply a sequence of gallery operations. -/
def FoximgImages.applyOps (g : FoximgImages) (ops : List GalleryOp) : FoximgImages :=
  ops.foldl FoximgImages.applyOp g

/-- Truncation toward zero, the rounding used by Rust's floating-point `%`. -/
def ratTrunc (q : ℚ) : Int :=
  if 0 ≤ q then ⌊q⌋ else ⌈q⌉

/-- Rust's `%` on floats: the remainder of truncating division,
`a - b * trunc(a / b)`. -/
def rustRem (a b : ℚ) : ℚ :=
  a - b * (ratTrunc (a / b) : ℚ)

/-- Mirrors the closure in `FoximgImages::rotate_n90`, acting on the current
image's `rotation` field: subtract `rotation % 90` (or a full `90` when the
rotation is already a multiple of 90), then snap `-90` to `270`. -/
def rotate_n90 (rotation : ℚ) : ℚ :=
  let rot_mod90 := rustRem rotation 90
  let rotation := rotation - (if rot_mod90 = 0 then 90 else rot_mod90)
  if rotation = -90 then 270 else rotation

/-- Mirrors the closure in `FoximgImages::rotate_90`: add `90 - rotation % 90`,
then wrap `360` to `0`. -/
def rotate_90 (rotation : ℚ) : ℚ :=
  let rotation := rotation + (90 - rustRem rotation 90)
  if rotation = 360 then 0 else rotation

/-- Which loader `FoximgFolder::push_images` stores for a recognized
extension. -/
inductive LoaderKind
  | dynamic
  | png
  | webp
  | gif
  deriving DecidableEq

/-- A filesystem path (or extension), as its byte string: Rust compares
`PathBuf`s of files in one directory byte-wise lexicographically, so byte
lists model both the paths and their ordering. -/
abbrev PathBytes := List Nat

/-- Mirrors `u8::to_ascii_lowercase` applied byte-wise (`OsStr`'s
`to_ascii_lowercase`): ASCII uppercase bytes 65–90 are shifted by 32, all
other bytes kept. -/
def asciiLowercase (s : PathBytes) : PathBytes :=
  s.map fun b => if 65 ≤ b ∧ b ≤ 90 then b + 32 else b

/-- The ASCII byte strings of the static-raster extensions recognized by
`FoximgFolder::push_images`: bmp, jpg, jpeg, jpe, jif, jfif, jfi, dds, hdr,
ico, qoi, tiff, pgm, pbm, ppm, pnm, exr. -/
def staticRasterExts : List PathBytes :=
  [[98, 109, 112], [106, 112, 103], [106, 112, 101, 103], [106, 112, 101],
   [106, 105, 102], [106, 102, 105, 102], [106, 102, 105], [100, 100, 115],
   [104, 100, 114], [105, 99, 111], [113, 111, 105], [116, 105, 102, 102],
   [112, 103, 109], [112, 98, 109], [112, 112, 109], [112, 110, 109],
   [101, 120, 114]]

/-- The extension classification table of `FoximgFolder::push_images` (the
`match ext` over the lowercased extension): static-raster extensions map to
the generic loader, apng (bytes 97 112 110 103) and png (112 110 103) to the
PNG loader, webp (119 101 98 112) and gif (103 105 102) to their loaders,
anything else is ignored. -/
def extLoader (ext : PathBytes) : Option LoaderKind :=
  if ext ∈ staticRasterExts then some .dynamic
  else if ext = [97, 112, 110, 103] ∨ ext = [112, 110, 103] then some .png
  else if ext = [119, 101, 98, 112] then some .webp
  else if ext = [103, 105, 102] then some .gif
  else none

/-- Byte-wise lexicographic comparison, Rust's `Ord` on byte strings (and on
the `PathBuf`s of files inside one directory). -/
def bytesCmp : PathBytes → PathBytes → Ordering
  | [], [] => .eq
  | [], _ :: _ => .lt
  | _ :: _, [] => .gt
  | a :: as, b :: bs =>
    if a < b then .lt else if b < a then .gt else bytesCmp as bs

/-- The folder-scan accumulator. Mirrors `FoximgFolder` in src/images.rs:
the requested target path, the accumulated image paths and loaders, and the
index of the target if it was seen. The counter `i` of the source always
equals `paths.len()` at each push (both start at 0 and increment together),
so it is not stored separately. -/
structure FoximgFolder where
  path : PathBytes
  paths : List PathBytes
  images_loader : List LoaderKind
  current : Option Nat
  deriving DecidableEq

/-- Mirrors `FoximgFolder::new` for a target path. -/
def FoximgFolder.init (path : PathBytes) : FoximgFolder :=
  { path := path, paths := [], images_loader := [], current := none }

/-- Mirrors `FoximgFolder::push_img`: record the index when the entry is the
target, then push the path and its loader. -/
def FoximgFolder.push_img (st : FoximgFolder) (current_path : PathBytes)
    (loader : LoaderKind) : FoximgFolder :=
  { st with
    current := if current_path = st.path then some st.paths.length else st.current,
    paths := st.paths ++ [current_path],
    images_loader := st.images_loader ++ [loader] }

/-- Mirrors the loop of `FoximgFolder::push_images`. A directory entry is a
(path, extension) pair as handed over by the filesystem enumeration, in
enumeration order (entries that fail the stat/file-type checks, directories,
and extension-less files are skipped by the source before the extension
match and are simply not part of the list). The extension is lowercased and
looked up in the classification table. -/
def FoximgFolder.push_images (st : FoximgFolder) :
    List (PathBytes × PathBytes) → FoximgFolder
  | [] => st
  | (p, ext) :: rest =>
    match extLoader (asciiLowercase ext) with
    | some loader => (st.push_img p loader).push_images rest
    | none => st.push_images rest

/-- The loop of Rust's `slice::binary_search_by`: maintain a `left < right`
window, probe `left + (right - left) / 2`, and return `Ok(mid)` on an exact
hit or `Err(left)` with the insertion point once the window is empty. The
fuel argument only bounds the iteration count; the window shrinks at every
step, so `length + 1` iterations always suffice. -/
def bsearchAux (l : List PathBytes) (t : PathBytes) :
    Nat → Nat → Nat → Except Nat Nat
  | 0, left, _ => .error left
  | fuel + 1, left, right =>
    if left < right then
      let mid := left + (right - left) / 2
      match bytesCmp (l.getD mid []) t with
      | .lt => bsearchAux l t fuel (mid + 1) right
      | .gt => bsearchAux l t fuel left mid
      | .eq => .ok mid
    else
      .error left

/-- Rust's `slice::binary_search_by` over the whole list. -/
def binarySearch (l : List PathBytes) (t : PathBytes) : Except Nat Nat :=
  bsearchAux l t (l.length + 1) 0 l.length

/-- Mirrors `FoximgFolder::get_closest_image_alphabetically`: the `Err`
insertion point of the binary search for the target, or `None` on an exact
hit (which cannot happen when this is called, since an exact hit would have
set `current` during the scan). -/
def FoximgFolder.get_closest_image_alphabetically (st : FoximgFolder) : Option Nat :=
  match binarySearch st.paths st.path with
  | .error i => some i
  | .ok _ => none

/-- Mirrors the fresh-scan path of `FoximgFolder::load` (the `skip_reread`
shortcut for an already-loaded folder and the I/O error on an unreadable
directory are outside this model): scan the entries; if nothing was pushed,
fail (`None`, the "no images could be loaded" error); otherwise the current
index is the target's index if seen, else the binary-search insertion point,
else 0 (`unwrap_or_default`). Returns the scanned path list and the chosen
current index. -/
def FoximgFolder.load (target : PathBytes) (entries : List (PathBytes × PathBytes)) :
    Option (List PathBytes × Nat) :=
  let st := (FoximgFolder.init target).push_images entries
  if 0 < st.paths.length then
    some (st.paths, (st.current.orElse fun _ => st.get_closest_image_alphabetically).getD 0)
  else
    none

/-- The `format_hint()` of an image-rs error, as far as the loader dispatch
inspects it: an exact PNG / WebP / GIF format, or anything else. -/
inductive FormatHint
  | exactPng
  | exactWebP
  | exactGif
  | otherHint
  deriving DecidableEq

/-- An image-rs `ImageError`, as far as the loader dispatch inspects it: the
`Unsupported` and `Decoding` variants with their format hint, and all other
errors collapsed. -/
inductive ImgError
  | unsupported (hint : FormatHint)
  | decoding (hint : FormatHint)
  | otherErr
  deriving DecidableEq

deriving instance DecidableEq for Except

/-- What `PngDecoder::new` yields for a file, once it succeeds: whether the
header carries an animation-control chunk (`is_apng`), the frames the APNG
frame iterator would produce after skipping the thumbnail (or the error that
aborts `collect_frames`), the APNG loop count, and the outcome of the static
`decode_static` path. -/
structure PngModel where
  is_apng : Bool
  apng_frames : Except ImgError (List Frame)
  apng_loops : AnimationLoops
  static_decode : Except ImgError Unit
  deriving DecidableEq

/-- What `WebPDecoder::new` yields for a file once it succeeds, in the same
style as `PngModel`. -/
structure WebpModel where
  has_animation : Bool
  anim_frames : Except ImgError (List Frame)
  anim_loops : AnimationLoops
  static_decode : Except ImgError Unit
  deriving DecidableEq

/-- What `GifDecoder::new` yields for a file once it succeeds: the collected
frame sequence (GIFs are always decoded as frame sequences) and the loop
count. -/
structure GifModel where
  frames : Except ImgError (List Frame)
  loops : AnimationLoops
  deriving DecidableEq

/-- A file on disk, described by what each decoder front-end does with its
bytes. `dynamic_decode` is the outcome of the whole generic raster path
(`FoximgDynamicImage::new` followed by `decode`; both stages fail without
fallback except for the three `Unsupported` exact-format hints, which only
`FoximgDynamicImage::new` can produce). The three `*_new` fields are the
outcomes of the specialized decoder constructors. -/
structure RFile where
  dynamic_decode : Except ImgError Unit
  png_new : Except ImgError PngModel
  webp_new : Except ImgError WebpModel
  gif_new : Except ImgError GifModel
  deriving DecidableEq

/-- Which concrete load path produced a handle. -/
inductive LoadSource
  | generic
  | pngStatic
  | apng
  | webpStatic
  | webpAnim
  | gif
  deriving DecidableEq

/-- The image handle. Mirrors `FoximgImage` in src/images.rs; the GPU texture
is not modelled (it carries no control-flow state), leaving the optional
animation player and the view-transform fields. -/
structure FoximgImage where
  animation : Option FoximgImageAnimated
  rotation : ℚ
  width_mult : Int
  height_mult : Int
  deriving DecidableEq

/-- Mirrors `FoximgImage::new`: fresh view-transform state (rotation 0, no
flip) around the given optional animation player. -/
def FoximgImage.new (animation : Option FoximgImageAnimated) : FoximgImage :=
  { animation := animation, rotation := 0, width_mult := 1, height_mult := 1 }

/-- How a load attempt can fail: a surfaced image error, the
`frames[0]` indexing panic of `get_frame` on an empty frame sequence, or fuel
exhaustion of the model's recursion bound (never reached by the theorems
below, which always supply enough fuel). -/
inductive LoadErr
  | img (e : ImgError)
  | emptyFramesCrash
  | outOfFuel
  deriving DecidableEq

/-- Outcome of a loader: an error, or a handle tagged with the path that
produced it. -/
abbrev LoadResult := Except LoadErr (LoadSource × FoximgImage)

/-- Mirrors `FoximgImage::new_apng`: decode the animation (its frames and
loop count), take the first frame as the texture (a panic when the sequence
is empty), and always attach the animation player. -/
def new_apng (d : PngModel) : LoadResult :=
  match d.apng_frames with
  | .error e => .error (.img e)
  | .ok [] => .error .emptyFramesCrash
  | .ok frames =>
    .ok (.apng, FoximgImage.new (some (FoximgImageAnimated.new frames d.apng_loops)))

/-- Mirrors `FoximgImage::new_png_static`. -/
def new_png_static (d : PngModel) : LoadResult :=
  match d.static_decode with
  | .error e => .error (.img e)
  | .ok _ => .ok (.pngStatic, FoximgImage.new none)

/-- Mirrors `FoximgImage::new_webp_animated` (the background color supplied
by the style provider does not affect the animated/static structure). -/
def new_webp_animated (d : WebpModel) : LoadResult :=
  match d.anim_frames with
  | .error e => .error (.img e)
  | .ok [] => .error .emptyFramesCrash
  | .ok frames =>
    .ok (.webpAnim, FoximgImage.new (some (FoximgImageAnimated.new frames d.anim_loops)))

/-- Mirrors `FoximgImage::new_webp_static`. -/
def new_webp_static (d : WebpModel) : LoadResult :=
  match d.static_decode with
  | .error e => .error (.img e)
  | .ok _ => .ok (.webpStatic, FoximgImage.new none)

mutual

/-- Mirrors `FoximgImage::new_dynamic`: try the generic raster path; when it
fails with an `Unsupported` error whose hint is exactly PNG, WebP or GIF,
fall back to the corresponding specialized loader; surface any other error.
The fuel bounds the (in practice shallow) mutual fallback recursion. -/
def new_dynamic : Nat → RFile → LoadResult
  | 0, _ => .error .outOfFuel
  | fuel + 1, f =>
    match f.dynamic_decode with
    | .ok _ => .ok (.generic, FoximgImage.new none)
    | .error (.unsupported .exactPng) => new_png fuel f
    | .error (.unsupported .exactWebP) => new_webp fuel f
    | .error (.unsupported .exactGif) => new_gif fuel f
    | .error e => .error (.img e)

/-- Mirrors `FoximgImage::new_png`: construct the PNG decoder; when that
fails with a `Decoding` error whose hint is exactly PNG (the bytes are not a
PNG), fall back to the generic loader; otherwise dispatch on the
animation-control chunk. -/
def new_png : Nat → RFile → LoadResult
  | 0, _ => .error .outOfFuel
  | fuel + 1, f =>
    match f.png_new with
    | .error (.decoding .exactPng) => new_dynamic fuel f
    | .error e => .error (.img e)
    | .ok d => if d.is_apng then new_apng d else new_png_static d

/-- Mirrors `FoximgImage::new_webp`, with the same fallback shape as
`new_png`. -/
def new_webp : Nat → RFile → LoadResult
  | 0, _ => .error .outOfFuel
  | fuel + 1, f =>
    match f.webp_new with
    | .error (.decoding .exactWebP) => new_dynamic fuel f
    | .error e => .error (.img e)
    | .ok d => if d.has_animation then new_webp_animated d else new_webp_static d

/-- Mirrors `FoximgImage::new_gif`: construct the GIF decoder (falling back
to the generic loader when the bytes are not a GIF), decode the frame
sequence, take the first frame (a panic when empty), and attach the
animation player only when the sequence has more than one frame. -/
def new_gif : Nat → RFile → LoadResult
  | 0, _ => .error .outOfFuel
  | fuel + 1, f =>
    match f.gif_new with
    | .error (.decoding .exactGif) => new_dynamic fuel f
    | .error e => .error (.img e)
    | .ok d =>
      match d.frames with
      | .error e => .error (.img e)
      | .ok [] => .error .emptyFramesCrash
      | .ok frames =>
        if 1 < frames.length then
          .ok (.gif, FoximgImage.new (some (FoximgImageAnimated.new frames d.loops)))
        else
          .ok (.gif, FoximgImage.new none)

end

/-! ## Theorems -/

/-- A single `update_frame` call on a state whose loop count is exhausted
(`loops = none`) changes nothing and reports the terminal result. -/
theorem update_frame_stopped (st : FoximgImageAnimated) (dt : ℚ)
    (h : st.loops = none) : st.update_frame dt = (st, none) := by
  simp [FoximgImageAnimated.update_frame, h]

/-- Unfolding equation: a run over the empty delta list does nothing. -/
theorem advanceRun_nil (st : FoximgImageAnimated) : st.advanceRun [] = (st, []) := rfl

/-- Unfolding equation: a run over `dt :: rest` is one `update_frame` step
followed by the run over `rest`. -/
theorem advanceRun_cons (st : FoximgImageAnimated) (dt : ℚ) (rest : List ℚ) :
    st.advanceRun (dt :: rest) =
      (((st.update_frame dt).1.advanceRun rest).1,
        (st.update_frame dt).2 :: ((st.update_frame dt).1.advanceRun rest).2) := rfl

/-- Auxiliary run lemma: from frame index `c` with zero elapsed time and one
remaining loop, a run of `frames.length - c` ticks whose deltas each exceed
the corresponding frame's delay emits "frame changed" on every tick but the
last, then "finished", ending with the index at `frames.length` and the loop
count exhausted. -/
theorem advanceRun_finiteOne_aux (dts : List ℚ) :
    ∀ (frames : List Frame) (c : Nat),
      c + dts.length = frames.length →
      0 < dts.length →
      (∀ k, k < dts.length → (frames.getD (c + k) default).delayMs < dts.getD k 0) →
      FoximgImageAnimated.advanceRun ⟨frames, c, 0, some (.Finite 1)⟩ dts =
        (⟨frames, frames.length, 0, none⟩,
          List.replicate (dts.length - 1) (some true) ++ [none]) := by
  induction dts with
  | nil => intro frames c h1 h2 h3; exact absurd h2 (lt_irrefl 0)
  | cons dt rest ih =>
    intro frames c h1 h2 h3
    have hlt : (frames.getD c default).delayMs < dt := by
      simpa using h3 0 (by simp)
    have hnle : ¬ ((0 : ℚ) + dt ≤ (frames.getD c default).delayMs) :=
      not_le.mpr (by rwa [zero_add])
    have key : FoximgImageAnimated.update_frame ⟨frames, c, 0, some (.Finite 1)⟩ dt
        = if 0 + dt ≤ (frames.getD c default).delayMs
          then (⟨frames, c, 0 + dt, some (.Finite 1)⟩, some false)
          else if frames.length ≠ c + 1
            then (⟨frames, c + 1, 0, some (.Finite 1)⟩, some true)
            else (⟨frames, c + 1, 0, none⟩, none) := rfl
    cases rest with
    | nil =>
      have hc1 : c + 1 = frames.length := by simpa using h1
      have hnn : ¬ (frames.length ≠ c + 1) := by omega
      rw [advanceRun_cons, key, if_neg hnle, if_neg hnn]
      dsimp only
      rw [advanceRun_nil]
      simp [hc1]
    | cons dt2 rest2 =>
      have hne : frames.length ≠ c + 1 := by
        simp only [List.length_cons] at h1
        omega
      have hstep : FoximgImageAnimated.update_frame ⟨frames, c, 0, some (.Finite 1)⟩ dt =
          (⟨frames, c + 1, 0, some (.Finite 1)⟩, some true) := by
        rw [key, if_neg hnle, if_pos hne]
      have hrec := ih frames (c + 1)
        (by simp only [List.length_cons] at h1 ⊢; omega)
        (by simp)
        (by
          intro k hk
          have := h3 (k + 1) (by simp only [List.length_cons] at hk ⊢; omega)
          simpa [Nat.add_assoc, Nat.add_comm 1 k] using this)
      rw [advanceRun_cons, hstep]
      dsimp only
      rw [hrec]
      simp [List.replicate_succ]

/-- Claim C1: an animated sequence with `n ≥ 1` frames and loop count
`Finite(1)`, advanced once per frame with deltas exceeding each frame's
delay, produces exactly `n - 1` "frame changed" results followed by exactly
one "finished" result; afterwards the player is permanently stopped: any
further `update_frame` call leaves the state unchanged and reports the
terminal result. -/
theorem c1_finite_one_plays_once (frames : List Frame) (dts : List ℚ)
    (h1 : frames ≠ []) (h2 : dts.length = frames.length)
    (h3 : ∀ k, k < dts.length → (frames.getD k default).delayMs < dts.getD k 0) :
    (FoximgImageAnimated.new frames (.Finite 1)).advanceRun dts =
      (⟨frames, frames.length, 0, none⟩,
        List.replicate (frames.length - 1) (some true) ++ [none]) ∧
    ∀ (st : FoximgImageAnimated) (dt : ℚ), st.loops = none →
      st.update_frame dt = (st, none) := by
  constructor
  · have hlen : 0 < dts.length := by
      rw [h2]
      exact List.length_pos.mpr h1
    have := advanceRun_finiteOne_aux dts frames 0 (by omega) hlen
      (by intro k hk; simpa using h3 k hk)
    simpa [FoximgImageAnimated.new, h2] using this
  · exact update_frame_stopped

/-- Witness for C1 at a concrete two-frame sequence (delays 10ms and 20ms)
advanced with deltas 11ms and 21ms. -/
theorem c1_witness :
    (FoximgImageAnimated.new [⟨10, 1⟩, ⟨20, 1⟩] (.Finite 1)).advanceRun [11, 21] =
      (⟨[⟨10, 1⟩, ⟨20, 1⟩], 2, 0, none⟩, [some true, none]) := by
  have h := (c1_finite_one_plays_once [⟨10, 1⟩, ⟨20, 1⟩] [11, 21] (by decide) rfl
    (by
      intro k hk
      match k with
      | 0 => norm_num [Frame.delayMs]
      | 1 => norm_num [Frame.delayMs]
      | k + 2 => simp at hk)).1
  simpa using h

/-- Claim C2: one `update_frame` step on a playing state first adds the delta
to the elapsed time; if the accumulated elapsed time is at most the current
frame's delay it returns "no update" leaving everything but the elapsed time
unchanged; otherwise it zeroes the elapsed time and increments the frame
index by exactly one, wrapping to 0 only when the incremented index reaches
the sequence length. -/
theorem c2_advance_step (st : FoximgImageAnimated) (l : AnimationLoops)
    (hl : st.loops = some l) (hc : st.current < st.frames.length) (dt : ℚ) :
    (st.current_delay + dt ≤ (st.frames.getD st.current default).delayMs →
      st.update_frame dt = ({ st with current_delay := st.current_delay + dt }, some false)) ∧
    ((st.frames.getD st.current default).delayMs < st.current_delay + dt →
      (st.update_frame dt).1.current_delay = 0 ∧
      ((st.update_frame dt).1.current = st.current + 1 ∨
        ((st.update_frame dt).1.current = 0 ∧ st.current + 1 = st.frames.length))) := by
  obtain ⟨frames, cur, cd, loops⟩ := st
  dsimp only at hl hc ⊢
  subst hl
  have key : FoximgImageAnimated.update_frame ⟨frames, cur, cd, some l⟩ dt
      = if cd + dt ≤ (frames.getD cur default).delayMs
        then (⟨frames, cur, cd + dt, some l⟩, some false)
        else if frames.length ≠ cur + 1
          then (⟨frames, cur + 1, 0, some l⟩, some true)
          else match l with
            | .Finite i =>
              match i.val - 1 with
              | 0 => (⟨frames, cur + 1, 0, none⟩, none)
              | k + 1 => (⟨frames, 0, 0, some (.Finite ⟨k + 1, k.succ_pos⟩)⟩, some true)
            | .Infinite => (⟨frames, 0, 0, some .Infinite⟩, some true) := rfl
  constructor
  · intro h
    rw [key, if_pos h]
  · intro h
    rw [key, if_neg (not_le.mpr h)]
    by_cases hlen : frames.length = cur + 1
    · rw [if_neg (by omega)]
      cases l with
      | Finite i =>
        dsimp only
        rcases hi : i.val - 1 with _ | k
        · exact ⟨rfl, Or.inl rfl⟩
        · exact ⟨rfl, Or.inr ⟨rfl, hlen.symm⟩⟩
      | Infinite =>
        exact ⟨rfl, Or.inr ⟨rfl, hlen.symm⟩⟩
    · rw [if_pos hlen]
      exact ⟨rfl, Or.inl rfl⟩

/-- Witness for C2 at a concrete one-frame state: a 5ms delta against a 10ms
delay gives "no update" with only the elapsed time advanced. -/
theorem c2_witness :
    FoximgImageAnimated.update_frame ⟨[⟨10, 1⟩], 0, 0, some .Infinite⟩ 5 =
      (⟨[⟨10, 1⟩], 0, 5, some .Infinite⟩, some false) := by
  have h := (c2_advance_step ⟨[⟨10, 1⟩], 0, 0, some .Infinite⟩ .Infinite rfl (by decide) 5).1
    (by norm_num [Frame.delayMs])
  simpa using h

/-- Claim C10: the loop count stored in a constructed animation player is
never zero: a GIF repeat count of 0 is normalized to `Finite(1)`, an APNG
`num_plays` of 0 to `Infinite`, every conversion result has a positive
finite count when finite, and `FoximgImageAnimated::new` stores the
converted value unchanged. -/
theorem c10_loop_count_never_zero :
    animationLoopsOfGifRepeat (.finite 0) = .Finite 1 ∧
    ApngDecoder.get_loop_count (some 0) = .Infinite ∧
    (∀ r, (animationLoopsOfGifRepeat r).positive) ∧
    (∀ ac, (ApngDecoder.get_loop_count ac).positive) ∧
    (∀ frames r, (FoximgImageAnimated.new frames (animationLoopsOfGifRepeat r)).loops =
        some (animationLoopsOfGifRepeat r)) ∧
    (∀ frames ac, (FoximgImageAnimated.new frames (ApngDecoder.get_loop_count ac)).loops =
        some (ApngDecoder.get_loop_count ac)) := by
  refine ⟨rfl, rfl, ?_, ?_, fun _ _ => rfl, fun _ _ => rfl⟩
  · intro r
    match r with
    | .finite 0 => exact Nat.one_pos
    | .finite (i + 1) => exact i.succ_pos
    | .infinite => trivial
  · intro ac
    match ac with
    | some 0 => trivial
    | some (i + 1) => exact i.succ_pos
    | none => exact Nat.one_pos

/-- Setting any entry of a boolean list to `true` preserves every entry that
was already `true`. -/
theorem getD_set_true (l : List Bool) (i j : Nat)
    (h : l.getD i false = true) : (l.set j true).getD i false = true := by
  induction l generalizing i j with
  | nil => simpa using h
  | cons a t ih =>
    cases j with
    | zero =>
      cases i with
      | zero => rfl
      | succ i' => simpa using h
    | succ j' =>
      cases i with
      | zero => simpa using h
      | succ i' => simpa using ih i' j' (by simpa using h)

/-- Setting an in-bounds entry of a boolean list to `true` makes that entry
read back `true`. -/
theorem getD_set_self (l : List Bool) (j : Nat) (hj : j < l.length) :
    (l.set j true).getD j false = true := by
  induction l generalizing j with
  | nil => simp at hj
  | cons a t ih =>
    cases j with
    | zero => rfl
    | succ j' => simpa using ih j' (by simpa using hj)

/-- One navigation step never changes the path list and keeps the current
index in bounds. -/
theorem navStep_preserves (g : FoximgImages) (b : Bool)
    (hc : g.current < g.paths.length) :
    (g.navStep b).paths = g.paths ∧ (g.navStep b).current < g.paths.length := by
  cases b with
  | true =>
    by_cases hci : g.can_inc
    · have := of_decide_eq_true hci
      refine ⟨?_, ?_⟩ <;> simp [FoximgImages.navStep, FoximgImages.inc, hci] <;> omega
    · simp [FoximgImages.navStep, FoximgImages.inc, hci, hc]
  | false =>
    by_cases hcd : g.can_dec
    · refine ⟨?_, ?_⟩ <;> simp [FoximgImages.navStep, FoximgImages.dec, hcd] <;> omega
    · simp [FoximgImages.navStep, FoximgImages.dec, hcd, hc]

/-- Any sequence of navigation steps never changes the path list and keeps
the current index in bounds. -/
theorem navRun_preserves (steps : List Bool) :
    ∀ (g : FoximgImages), g.current < g.paths.length →
      (g.navRun steps).paths = g.paths ∧ (g.navRun steps).current < g.paths.length := by
  induction steps with
  | nil => intro g hc; exact ⟨rfl, hc⟩
  | cons b rest ih =>
    intro g hc
    have hstep := navStep_preserves g b hc
    have hrec := ih (g.navStep b) (hstep.1 ▸ hstep.2)
    have hrun : g.navRun (b :: rest) = (g.navStep b).navRun rest := rfl
    rw [hrun]
    exact ⟨hrec.1.trans hstep.1, hstep.1 ▸ hrec.2⟩

/-- Claim C3: for a gallery with the current index in bounds, the invariant
`current < paths.length` holds after any sequence of navigation operations
(which never change the path list), and navigating forward at the last index
or backward at index 0 is a no-op. -/
theorem c3_navigation_in_bounds (g : FoximgImages)
    (hc : g.current < g.paths.length) :
    (∀ steps : List Bool, (g.navRun steps).paths = g.paths ∧
      (g.navRun steps).current < g.paths.length) ∧
    (g.current = g.paths.length - 1 → g.inc = g) ∧
    (g.current = 0 → g.dec = g) := by
  refine ⟨fun steps => navRun_preserves steps g hc, ?_, ?_⟩
  · intro h
    have : ¬ g.can_inc := by
      simp only [FoximgImages.can_inc, h, decide_eq_true_eq]
      omega
    simp [FoximgImages.inc, this]
  · intro h
    have : ¬ g.can_dec := by
      simp only [FoximgImages.can_dec, h, decide_eq_true_eq]
      omega
    simp [FoximgImages.dec, this]

/-- A concrete two-image gallery used by the gallery witnesses. -/
def galleryNav : FoximgImages :=
  ⟨[none, none], ["a", "b"], [none, none], [false, false], 0, []⟩

/-- Witness for C3 at a concrete two-image gallery: three forward steps stay
in bounds and a backward step at index 0 is a no-op. -/
theorem c3_witness :
    (galleryNav.navRun [true, true, true]).current < galleryNav.paths.length ∧
    galleryNav.dec = galleryNav := by
  have h := c3_navigation_in_bounds galleryNav (by decide)
  exact ⟨(h.1 [true, true, true]).2, h.2.2 rfl⟩

/-- Fetching with an already-failed current image changes nothing, returns
nothing and never calls the loader. -/
theorem img_get_failed (g : FoximgImages) (hf : g.img_failed = true) :
    g.img_get = ⟨g, none, false⟩ := by
  unfold FoximgImages.img_get
  rw [if_pos hf]

/-- A fetch, `inc` or `dec` never clears a failed flag. -/
theorem applyOp_failed_mono (g : FoximgImages) (op : GalleryOp) (i : Nat)
    (h : g.images_failed.getD i false = true) :
    (g.applyOp op).images_failed.getD i false = true := by
  cases op with
  | fetch =>
    show g.img_get.state.images_failed.getD i false = true
    unfold FoximgImages.img_get
    by_cases hf : g.img_failed
    · rw [if_pos hf]
      exact h
    · rw [if_neg hf]
      cases him : g.images.getD g.current none with
      | some t => exact h
      | none =>
        cases hl : g.images_loader.getD g.current none with
        | some t =>
          dsimp only
          exact h
        | none =>
          dsimp only
          exact getD_set_true g.images_failed i g.current h
  | incOp =>
    show g.inc.images_failed.getD i false = true
    unfold FoximgImages.inc
    split <;> exact h
  | decOp =>
    show g.dec.images_failed.getD i false = true
    unfold FoximgImages.dec
    split <;> exact h

/-- No sequence of gallery operations ever clears a failed flag. -/
theorem applyOps_failed_mono (ops : List GalleryOp) :
    ∀ (g : FoximgImages) (i : Nat), g.images_failed.getD i false = true →
      (g.applyOps ops).images_failed.getD i false = true := by
  induction ops with
  | nil => intro g i h; exact h
  | cons op rest ih =>
    intro g i h
    exact ih (g.applyOp op) i (applyOp_failed_mono g op i h)

/-- Claim C4: when the loader of the current entry fails on a fetch, the
fetch permanently sets the entry's failed flag and returns nothing; every
subsequent fetch at that entry returns nothing immediately, without invoking
the loader and without changing the state; no sequence of gallery operations
ever clears a failed flag; and navigation is unaffected by failed entries
(it moves exactly as the boundary checks allow). -/
theorem c4_failed_is_permanent (g : FoximgImages)
    (hcur : g.current < g.images_failed.length) :
    (g.img_failed = true → g.img_get = ⟨g, none, false⟩) ∧
    (g.img_failed = false →
      g.images.getD g.current none = none →
      g.images_loader.getD g.current none = none →
      g.img_get = ⟨{ g with images_failed := g.images_failed.set g.current true },
        none, true⟩ ∧
      g.img_get.state.img_failed = true ∧
      g.img_get.state.img_get = ⟨g.img_get.state, none, false⟩) ∧
    (∀ (ops : List GalleryOp) (i : Nat), g.images_failed.getD i false = true →
      (g.applyOps ops).images_failed.getD i false = true) ∧
    (g.can_inc = true → g.inc.current = g.current + 1) ∧
    (g.can_dec = true → g.dec.current = g.current - 1) := by
  refine ⟨img_get_failed g, ?_, fun ops i h => applyOps_failed_mono ops g i h, ?_, ?_⟩
  · intro hf him hl
    have hnf : ¬ (g.img_failed = true) := by simp [hf]
    have hget : g.img_get =
        ⟨{ g with images_failed := g.images_failed.set g.current true }, none, true⟩ := by
      unfold FoximgImages.img_get
      rw [if_neg hnf, him, hl]
    have hfail : g.img_get.state.img_failed = true := by
      rw [hget]
      exact getD_set_self g.images_failed g.current hcur
    exact ⟨hget, hfail, img_get_failed _ hfail⟩
  · intro hci
    simp [FoximgImages.inc, hci]
  · intro hcd
    simp [FoximgImages.dec, hcd]

/-- A concrete one-image gallery whose loader fails. -/
def galleryFailLoad : FoximgImages := ⟨[none], ["a.png"], [none], [false], 0, []⟩

/-- Witness for C4 at a concrete gallery with a failing loader: the first
fetch marks the entry failed and returns nothing; the second fetch is a
no-op that does not call the loader. -/
theorem c4_witness :
    galleryFailLoad.img_get =
      ⟨⟨[none], ["a.png"], [none], [true], 0, []⟩, none, true⟩ ∧
    galleryFailLoad.img_get.state.img_get =
      ⟨galleryFailLoad.img_get.state, none, false⟩ := by
  have h := (c4_failed_is_permanent galleryFailLoad (by decide)).2.1 rfl rfl rfl
  exact ⟨h.1, h.2.2⟩

/-- A concrete gallery whose current entry has a live cached handle `7` (and
a loader that would return a different handle `9` if it were called). -/
def galleryCachedHit : FoximgImages := ⟨[some 7], ["a.png"], [some 9], [false], 0, []⟩

/-- Counterexample to C5 as stated: fetching the current image through a
successful weak-reference upgrade returns the cached handle but does NOT
record it in the strong-reference ring buffer — the ring buffer stays empty,
so its tail is not the returned handle. -/
theorem c5_counterexample :
    galleryCachedHit.img_get.result = some 7 ∧
    galleryCachedHit.img_get.state.current_images = [] ∧
    galleryCachedHit.img_get.state.current_images.getLast? ≠ some 7 := by
  decide

/-- Claim C5 as amended: a fetch that succeeds through the weak-reference
upgrade returns the handle and leaves the gallery (ring buffer included)
untouched; only a fetch that decodes afresh records the new handle at the
tail of the capacity-64 ring buffer, dropping the oldest entry when the
buffer is full. -/
theorem c5_ring_buffer_on_decode_only (g : FoximgImages) (h : Nat)
    (hf : g.img_failed = false) :
    (g.images.getD g.current none = some h → g.img_get = ⟨g, some h, false⟩) ∧
    (g.images.getD g.current none = none →
      g.images_loader.getD g.current none = some h →
      g.img_get.result = some h ∧
      g.img_get.state.current_images = pushBack64 g.current_images h ∧
      (pushBack64 g.current_images h).getLast? = some h ∧
      (g.current_images.length ≤ 64 → (pushBack64 g.current_images h).length ≤ 64) ∧
      (¬ g.current_images.length < 64 →
        pushBack64 g.current_images h = g.current_images.tail ++ [h])) := by
  have hnf : ¬ (g.img_failed = true) := by simp [hf]
  constructor
  · intro him
    unfold FoximgImages.img_get
    rw [if_neg hnf, him]
  · intro him hl
    have hget : g.img_get =
        ⟨{ g with images := g.images.set g.current (some h),
                  current_images := pushBack64 g.current_images h }, some h, true⟩ := by
      unfold FoximgImages.img_get
      rw [if_neg hnf, him, hl]
    refine ⟨?_, ?_, ?_, ?_, ?_⟩
    · rw [hget]
    · rw [hget]
    · unfold pushBack64
      split <;> exact List.getLast?_concat _
    · intro hle
      unfold pushBack64
      split <;> simp <;> omega
    · intro hfull
      unfold pushBack64
      rw [if_neg hfull]

/-- Witness for the amended C5 at the concrete cached-hit gallery: the fetch
returns handle 7 and leaves the gallery unchanged. -/
theorem c5_witness :
    galleryCachedHit.img_get = ⟨galleryCachedHit, some 7, false⟩ :=
  (c5_ring_buffer_on_decode_only galleryCachedHit 7 rfl).1 rfl

/-- Claim C6, evaluated at the failing input. The folder holds exactly the
images `a.png` (bytes 97 46 112 110 103) and `b.png` (98 46 112 110 103), in
sorted enumeration order, plus the non-image target `z.txt` (122 46 116 120
116). The scan keeps the two images sorted, the target matches no entry, and
the binary-search insertion point chosen as the current index is 2 — equal
to the length of the path list and therefore out of bounds (the claim, and
the spec's invariant `current < len`, require it to be in bounds; `img_path`
would index `paths[2]` and panic). A target that sorts between the images
(`ab.png`) does get an in-bounds neighbor index, showing the failure is
specific to targets sorting after every image. -/
theorem c6_insertion_point_out_of_bounds :
    FoximgFolder.load [122, 46, 116, 120, 116]
      [([97, 46, 112, 110, 103], [112, 110, 103]),
       ([98, 46, 112, 110, 103], [112, 110, 103]),
       ([122, 46, 116, 120, 116], [116, 120, 116])] =
      some ([[97, 46, 112, 110, 103], [98, 46, 112, 110, 103]], 2) ∧
    ¬ (2 < ([[97, 46, 112, 110, 103], [98, 46, 112, 110, 103]] : List PathBytes).length) ∧
    FoximgFolder.load [97, 98, 46, 112, 110, 103]
      [([97, 46, 112, 110, 103], [112, 110, 103]),
       ([98, 46, 112, 110, 103], [112, 110, 103])] =
      some ([[97, 46, 112, 110, 103], [98, 46, 112, 110, 103]], 1) := by
  decide

/-- A PNG file whose header carries an animation-control chunk but whose
frame iterator yields exactly one frame after the thumbnail. -/
def pngOneFrameApng : PngModel := ⟨true, .ok [⟨10, 1⟩], .Infinite, .ok ()⟩

/-- A file whose PNG decoder succeeds as `pngOneFrameApng` (the other
decoders are irrelevant to the PNG load path). -/
def fileOneFrameApng : RFile :=
  ⟨.error .otherErr, .ok pngOneFrameApng, .error .otherErr, .error .otherErr⟩

/-- Counterexample to C7 as stated: an APNG whose sequence has length 1 (at
most one frame after the thumbnail) does NOT produce a static handle — the
PNG load path attaches an animation player unconditionally. -/
theorem c7_counterexample :
    pngOneFrameApng.apng_frames.map List.length = .ok 1 ∧
    pngOneFrameApng.is_apng = true ∧
    (new_png 1 fileOneFrameApng).map (fun p => p.2.animation.isSome) = .ok true := by
  decide

/-- Claim C7 as amended: only the GIF loader applies the single-frame rule —
a GIF sequence of length 1 yields a static handle (no animation player), a
longer one an animated handle; the APNG path always attaches an animation
player to any non-empty sequence, regardless of its length (and panics on an
empty one). -/
theorem c7_single_frame_rule (f : RFile) (d : GifModel) (dp : PngModel)
    (frames : List Frame) (fuel : Nat) :
    (f.gif_new = .ok d → d.frames = .ok frames → frames ≠ [] → frames.length ≤ 1 →
      new_gif (fuel + 1) f = .ok (.gif, FoximgImage.new none)) ∧
    (f.gif_new = .ok d → d.frames = .ok frames → 1 < frames.length →
      new_gif (fuel + 1) f =
        .ok (.gif, FoximgImage.new (some (FoximgImageAnimated.new frames d.loops)))) ∧
    (f.png_new = .ok dp → dp.is_apng = true → dp.apng_frames = .ok frames →
      frames ≠ [] →
      new_png (fuel + 1) f =
        .ok (.apng, FoximgImage.new (some (FoximgImageAnimated.new frames dp.apng_loops)))) := by
  refine ⟨?_, ?_, ?_⟩
  · intro hg hd hne hlen
    cases frames with
    | nil => exact absurd rfl hne
    | cons fr rest =>
      have hnlt : ¬ (1 < (fr :: rest).length) := by
        simp only [List.length_cons] at hlen ⊢
        omega
      simp only [new_gif, hg, hd]
      rw [if_neg hnlt]
  · intro hg hd hlen
    cases frames with
    | nil => simp at hlen
    | cons fr rest =>
      simp only [new_gif, hg, hd]
      rw [if_pos hlen]
  · intro hp hap hfr hne
    cases frames with
    | nil => exact absurd rfl hne
    | cons fr rest =>
      simp only [new_png, hp, hap, if_true, new_apng, hfr]

/-- Witness for the amended C7 at the concrete one-frame APNG: the load
succeeds and attaches an animation player to the single-frame sequence. -/
theorem c7_witness :
    new_png 1 fileOneFrameApng =
      .ok (.apng, FoximgImage.new (some (FoximgImageAnimated.new [⟨10, 1⟩] .Infinite))) :=
  (c7_single_frame_rule fileOneFrameApng ⟨.error .otherErr, .Infinite⟩ pngOneFrameApng
    [⟨10, 1⟩] 0).2.2 rfl rfl rfl (by decide)

/-- Claim C8: the generic raster path and the specialized PNG/WebP/GIF paths
fall back to each other — a generic failure with an exact PNG/WebP/GIF
`Unsupported` hint dispatches to the matching specialized loader, a
specialized constructor failure with its own exact `Decoding` hint (the
bytes are not that format) dispatches to the generic loader, and in
particular a file with a PNG extension whose bytes the generic decoder
accepts (e.g. a JPEG) loads successfully through the fallback. -/
theorem c8_mutual_format_fallback (f : RFile) (fuel : Nat) :
    (f.dynamic_decode = .error (.unsupported .exactPng) →
      new_dynamic (fuel + 1) f = new_png fuel f) ∧
    (f.dynamic_decode = .error (.unsupported .exactWebP) →
      new_dynamic (fuel + 1) f = new_webp fuel f) ∧
    (f.dynamic_decode = .error (.unsupported .exactGif) →
      new_dynamic (fuel + 1) f = new_gif fuel f) ∧
    (f.png_new = .error (.decoding .exactPng) →
      new_png (fuel + 1) f = new_dynamic fuel f) ∧
    (f.webp_new = .error (.decoding .exactWebP) →
      new_webp (fuel + 1) f = new_dynamic fuel f) ∧
    (f.gif_new = .error (.decoding .exactGif) →
      new_gif (fuel + 1) f = new_dynamic fuel f) ∧
    (f.png_new = .error (.decoding .exactPng) → f.dynamic_decode = .ok () →
      new_png (fuel + 2) f = .ok (.generic, FoximgImage.new none)) := by
  refine ⟨?_, ?_, ?_, ?_, ?_, ?_, ?_⟩
  · intro h
    simp only [new_dynamic, h]
  · intro h
    simp only [new_dynamic, h]
  · intro h
    simp only [new_dynamic, h]
  · intro h
    simp only [new_png, h]
  · intro h
    simp only [new_webp, h]
  · intro h
    simp only [new_gif, h]
  · intro hpng hdyn
    simp only [new_png, hpng, new_dynamic, hdyn]

/-- A file with a PNG extension whose bytes are a JPEG: the PNG constructor
fails with "not actually a PNG" and the generic decoder succeeds. -/
def fileJpegWithPngExt : RFile :=
  ⟨.ok (), .error (.decoding .exactPng), .error .otherErr, .error .otherErr⟩

/-- Witness for C8: the misnamed JPEG loads successfully through the PNG
loader's fallback to the generic decoder. -/
theorem c8_witness :
    new_png 2 fileJpegWithPngExt = .ok (.generic, FoximgImage.new none) :=
  (c8_mutual_format_fallback fileJpegWithPngExt 0).2.2.2.2.2.2 rfl rfl

/-- Claim C9: starting from rotation 0, four `rotate_90` calls return to 0;
one `rotate_n90` from 0 gives 270 (not -90); and from any rotation in
[0, 360) that is not a multiple of 90, `rotate_n90` snaps down to the
nearest multiple of 90 below (`90 * ⌊r / 90⌋`) and `rotate_90` snaps up to
the nearest multiple of 90 above (`90 * (⌊r / 90⌋ + 1)`, wrapped to 0 at
360), instead of adding exactly 90. -/
theorem c9_rotation_snapping :
    rotate_90 (rotate_90 (rotate_90 (rotate_90 0))) = 0 ∧
    rotate_n90 0 = 270 ∧
    (∀ r : ℚ, 0 ≤ r → r < 360 → 90 * (⌊r / 90⌋ : ℚ) ≠ r →
      rotate_n90 r = 90 * (⌊r / 90⌋ : ℚ) ∧
      rotate_90 r = if 90 * ((⌊r / 90⌋ : ℚ) + 1) = 360 then 0
        else 90 * ((⌊r / 90⌋ : ℚ) + 1)) := by
  refine ⟨by norm_num [rotate_90, rustRem, ratTrunc], by norm_num [rotate_n90, rustRem, ratTrunc], ?_⟩
  intro r h0 _h360 hnm
  have htr : ratTrunc (r / 90) = ⌊r / 90⌋ := by
    unfold ratTrunc
    rw [if_pos (by positivity)]
  have hrem : rustRem r 90 = r - 90 * (⌊r / 90⌋ : ℚ) := by
    unfold rustRem
    rw [htr]
  have hfl0 : (0 : ℚ) ≤ (⌊r / 90⌋ : ℚ) := by
    have : (0 : ℤ) ≤ ⌊r / 90⌋ := Int.floor_nonneg.mpr (by positivity)
    exact_mod_cast this
  have hne : ¬ (r - 90 * (⌊r / 90⌋ : ℚ) = 0) := by
    intro hh
    exact hnm (by linarith)
  constructor
  · unfold rotate_n90
    dsimp only
    rw [hrem, if_neg hne]
    have e1 : r - (r - 90 * (⌊r / 90⌋ : ℚ)) = 90 * (⌊r / 90⌋ : ℚ) := by ring
    rw [e1, if_neg (by intro hh; linarith)]
  · unfold rotate_90
    dsimp only
    rw [hrem]
    have e2 : r + (90 - (r - 90 * (⌊r / 90⌋ : ℚ))) = 90 * ((⌊r / 90⌋ : ℚ) + 1) := by
      ring
    rw [e2]

/-- Witness for C9 at the concrete rotation 45 (not a multiple of 90):
`rotate_n90` snaps down to 0 and `rotate_90` snaps up to 90. -/
theorem c9_witness : rotate_n90 45 = 0 ∧ rotate_90 45 = 90 := by
  have hf : (⌊(45 : ℚ) / 90⌋ : ℤ) = 0 := by norm_num
  have h := c9_rotation_snapping.2.2 45 (by norm_num) (by norm_num)
    (by rw [hf]; norm_num)
  refine ⟨?_, ?_⟩
  · rw [h.1, hf]
    norm_num
  · rw [h.2, hf]
    norm_num

end Foximg
